import Mathlib

/-!
# Verification of the lang-test research pipeline

Shallow embedding of the research pipeline of the `lang-test` repository:
the filter stage's relevance normalization and regrouping
(`research-agent.ts` / `filterNode`), the summarize stage's source
deduplication and ranking (`summarizeNode`), the cached search tool
(`search-agent-tool.ts`), the retrying raw-result fetch
(`searxng-search-tool.ts`), the vector store (`vector-search.ts`),
the LLM JSON extraction helper (`llm-helpers.ts`), the query-planning
node (`generateQueriesNode`) and the MongoDB save path
(`mongodb-storage-tool.ts` / `saveNode`).

JavaScript numbers are modelled as rationals (`ℚ`), JS strings as Lean
`String` (or `List Char` where character-level manipulation matters),
`undefined`-able values as `Option`, and thrown exceptions as `Except`.
External collaborators (the search engine, the LLM, the database) are
parameters of the functions that call them.
-/

/-- An item of `SearchResult.results` (`search-agent.ts`): `relevanceScore`
is optional (`relevanceScore?: number`). -/
structure RawItem where
  title : String
  url : String
  snippet : String
  relevanceScore : Option ℚ
deriving DecidableEq, Repr

/-- `SearchResult` from `search-agent.ts`; the `Date` timestamp is modelled
as a `Nat`. -/
structure SearchResult where
  query : String
  results : List RawItem
  summary : String
  timestamp : Nat
deriving DecidableEq, Repr

/-- The metadata payload stored with each indexed item and returned inside
a similarity match (`filterNode`'s search result `value`). -/
structure MatchValue where
  title : String
  url : String
  snippet : String
  query : String
  summary : String
deriving DecidableEq, Repr

/-- A similarity-search match as returned by `VectorSearch.search`:
`score` is optional (`score?: number`). -/
structure ScoredMatch where
  key : String
  value : MatchValue
  score : Option ℚ
deriving DecidableEq, Repr

/-- A deduplicated source from `summarizeNode`. -/
structure Source where
  url : String
  title : String
  relevance : ℚ
deriving DecidableEq, Repr

/-! ## Filter stage: relevance normalization and regrouping (`filterNode`) -/

/-- `result.score ? Math.min(10, result.score * 10) : 5` from `filterNode`.
The JS conditional tests truthiness, so a score of `0` (and an absent
score) takes the `5` branch; any other number takes the `min` branch. -/
def jsRelevance (score : Option ℚ) : ℚ :=
  match score with
  | some s => if s = 0 then 5 else min 10 (s * 10)
  | none => 5

/-- The object pushed onto `queryResult.results` in `filterNode`. -/
def mkFilteredItem (m : ScoredMatch) : RawItem :=
  { title := m.value.title
    url := m.value.url
    snippet := m.value.snippet
    relevanceScore := some (jsRelevance m.score) }

/-- One iteration of `filterNode`'s regrouping loop over the similarity
matches.  The accumulator models the insertion-ordered
`resultsByQuery : Map<string, SearchResult>`: on a fresh query the group
is seeded from the original `SearchResult` (with an empty `results`
list) when one exists, then the match is appended to its group. -/
def regroupStep (origs : List SearchResult)
    (acc : List (String × SearchResult)) (m : ScoredMatch) :
    List (String × SearchResult) :=
  let q := m.value.query
  let acc1 :=
    if acc.any (fun p => p.fst == q) then acc
    else
      match origs.find? (fun r => r.query == q) with
      | some o => acc ++ [(q, { o with results := [] })]
      | none => acc
  acc1.map (fun p =>
    if p.fst == q then
      (p.fst, { p.snd with results := p.snd.results ++ [mkFilteredItem m] })
    else p)

/-- `filterNode`'s regrouping of similarity matches by originating query:
fold the matches through `regroupStep` and return the map's values in
insertion order (`[...resultsByQuery.values()]`). -/
def filterRegroup (origs : List SearchResult) (ms : List ScoredMatch) :
    List SearchResult :=
  (ms.foldl (regroupStep origs) []).map (fun p => p.snd)

/-! ## Summarize stage: source deduplication and ranking (`summarizeNode`) -/

/-- `relevance: source.relevanceScore || 5` — JS `||` yields `5` when the
stored score is `undefined` or `0`. -/
def jsOrFive (score : Option ℚ) : ℚ :=
  match score with
  | some s => if s = 0 then 5 else s
  | none => 5

/-- The `Source` built from one item in `summarizeNode`'s dedup loop. -/
def mkSource (it : RawItem) : Source :=
  { url := it.url, title := it.title, relevance := jsOrFive it.relevanceScore }

/-- One iteration of `summarizeNode`'s dedup loop: insert into the
url-keyed map only when the url is not already present.  The accumulator
models the insertion-ordered `sourcesMap`. -/
def insSource (acc : List Source) (it : RawItem) : List Source :=
  if acc.any (fun s => s.url == it.url) then acc
  else acc ++ [mkSource it]

/-- The insertion-ordered contents of `sourcesMap` after iterating all
groups and all items (`[...sourcesMap.values()]`). -/
def collectDedup (groups : List SearchResult) : List Source :=
  groups.foldl (fun acc g => g.results.foldl insSource acc) []

/-- The comparator of `toSorted((a, b) => b.relevance - a.relevance)`:
`a` is placed before `b` when the comparator is negative, i.e. descending
by relevance, and `toSorted` is a stable sort. -/
def relDesc (a b : Source) : Prop := b.relevance ≤ a.relevance

instance : DecidableRel relDesc := fun a b => by
  unfold relDesc; infer_instance

instance : IsTotal Source relDesc :=
  ⟨fun a b => (le_total b.relevance a.relevance).imp id id⟩

instance : IsTrans Source relDesc :=
  ⟨fun _ _ _ h1 h2 => le_trans h2 h1⟩

/-- `summarizeNode`'s source list: dedup, stable-sort descending by
relevance, truncate to the first 15. -/
def collectSources (groups : List SearchResult) : List Source :=
  ((collectDedup groups).insertionSort relDesc).take 15

/-! ## Cached search tool (`search-agent-tool.ts`) -/

/-- `this.searchCache.has(query)` — exact, case-sensitive `Map` lookup.
The cache is modelled as an insertion-ordered association list. -/
def cacheHas (cache : List (String × SearchResult)) (q : String) : Bool :=
  cache.any (fun p => p.fst == q)

/-- `this.searchCache.get(query)` as an `Option`. -/
def cacheGet (cache : List (String × SearchResult)) (q : String) :
    Option SearchResult :=
  (cache.find? (fun p => p.fst == q)).map (fun p => p.snd)

/-- One `SearchAgentTool._call(query)`: on a cache hit, no outbound
search; on a miss, one outbound call to the search collaborator
(`oracle`); a successful result is cached, a thrown error is caught
(an error string is returned) and nothing is cached.  Returns the new
cache and the queries for which an outbound call was issued. -/
def toolCallStep (oracle : String → Except String SearchResult)
    (cache : List (String × SearchResult)) (q : String) :
    List (String × SearchResult) × List String :=
  if cacheHas cache q then (cache, [])
  else
    match oracle q with
    | .ok r => (cache ++ [(q, r)], [q])
    | .error _ => (cache, [q])

/-- A sequence of `_call`s on one `SearchAgentTool` instance, threading
the cache and concatenating the outbound-call trace. -/
def toolRun (oracle : String → Except String SearchResult) :
    List (String × SearchResult) → List String →
    List (String × SearchResult) × List String
  | cache, [] => (cache, [])
  | cache, q :: qs =>
      let s := toolCallStep oracle cache q
      let rest := toolRun oracle s.fst qs
      (rest.fst, s.snd ++ rest.snd)

/-- `SearchAgentTool.getStructuredResult(query)`: run `_call` (populating
the cache on success), then return `this.searchCache.get(query)!` — the
non-null assertion is a lie when the search threw, so the result is
`none` (JS `undefined`) in that case rather than a rejected promise. -/
def getStructuredResult (oracle : String → Except String SearchResult)
    (cache : List (String × SearchResult)) (q : String) :
    List (String × SearchResult) × Option SearchResult :=
  let c2 := (toolCallStep oracle cache q).fst
  (c2, cacheGet c2 q)

/-- `searchNode` of `research-agent.ts`: for each generated query in
order, `searchResults.push(await this.searchTool.getStructuredResult(query))`.
The pushed values are `Option SearchResult` because `getStructuredResult`
can resolve to `undefined`. -/
def searchNodeRun (oracle : String → Except String SearchResult) :
    List (String × SearchResult) → List String →
    List (String × SearchResult) × List (Option SearchResult)
  | cache, [] => (cache, [])
  | cache, q :: qs =>
      let s := getStructuredResult oracle cache q
      let rest := searchNodeRun oracle s.fst qs
      (rest.fst, s.snd :: rest.snd)

/-! ## Raw-result fetch with retries (`searxng-search-tool.ts`) -/

/-- A raw SearxNG result: `content` may be missing. -/
structure SearxItem where
  title : String
  url : String
  content : Option String
deriving DecidableEq, Repr

/-- The structured result built by `getStructuredResults`. -/
structure StructuredItem where
  title : String
  url : String
  snippet : String
deriving DecidableEq, Repr

/-- `result.content || "No description available"`. -/
def toStructured (r : SearxItem) : StructuredItem :=
  { title := r.title
    url := r.url
    snippet := match r.content with
      | some c => if c = "" then "No description available" else c
      | none => "No description available" }

/-- Observable events of one `getStructuredResults` run: an outbound HTTP
attempt, or a `setTimeout` sleep in milliseconds. -/
inductive FetchEvent where
  | attempt (n : Nat)
  | sleep (ms : Nat)
deriving DecidableEq, Repr

/-- One attempt's outcome from the HTTP collaborator: a thrown error, or
a response whose `results` field may be missing (`none`) or present. -/
def AttemptOutcome : Type := Except String (Option (List SearxItem))

/-- An attempt outcome counts as result-less when the request threw, or
`response.data.results` is missing or empty. -/
def badOutcome : AttemptOutcome → Bool
  | .error _ => true
  | .ok none => true
  | .ok (some []) => true
  | .ok (some (_ :: _)) => false

/-- The retry loop of `SearxNGSearchTool.getStructuredResults`:
`attempt` is the 1-based loop counter, `remaining` the number of
attempts left (`maxRetries - attempt + 1`).  On a result-less outcome
with attempts left, sleep `3000` ms and retry; on the last attempt,
return `[]`; on results, return the first `maxResults` mapped items. -/
def fetchLoop (resp : Nat → AttemptOutcome) (maxResults : Nat) :
    Nat → Nat → List StructuredItem × List FetchEvent
  | _, 0 => ([], [])
  | attempt, remaining + 1 =>
      match resp attempt with
      | .ok (some (r :: rs)) =>
          (((r :: rs).take maxResults).map toStructured,
            [FetchEvent.attempt attempt])
      | _ =>
          if remaining = 0 then ([], [FetchEvent.attempt attempt])
          else
            let rest := fetchLoop resp maxResults (attempt + 1) remaining
            (rest.fst,
              FetchEvent.attempt attempt :: FetchEvent.sleep 3000 :: rest.snd)

/-- `getStructuredResults(query, maxResults = 5)` with `maxRetries = 3`,
as a function of the per-attempt collaborator outcome. -/
def getStructuredResults (resp : Nat → AttemptOutcome)
    (maxResults : Nat := 5) : List StructuredItem × List FetchEvent :=
  fetchLoop resp maxResults 1 3

/-! ## Vector store (`vector-search.ts`) -/

/-- The `InMemoryStore` keyed by `(namespace, id)`, modelled as an
insertion-ordered association list with values of type `α`. -/
def VStore (α : Type) : Type := List ((List String × String) × α)

/-- `store.put(namespace, id, value)` — upsert. -/
def storePut {α : Type} (s : VStore α) (ns : List String) (id : String)
    (v : α) : VStore α :=
  (s.filter (fun e => !(e.fst == (ns, id)))) ++ [((ns, id), v)]

/-- `VectorSearch.getById` via `store.get(namespace, id)`. -/
def storeGet {α : Type} (s : VStore α) (ns : List String) (id : String) :
    Option α :=
  (s.find? (fun e => e.fst == (ns, id))).map (fun e => e.snd)

/-- `VectorSearch.clearNamespace()`: the source explicitly implements it
as a no-op ("No-op for now"), relying on object destruction. -/
def clearNamespace {α : Type} (s : VStore α) : VStore α := s

/-! ## JSON values and `JSON.parse` (modelled JS builtin)

`extractJsonFromLLMResponse` and `MongoDBStorageTool._call` both call the
JS builtin `JSON.parse`.  It is modelled here by a recursive-descent
parser over `List Char` covering the JSON fragment the repository
exercises: objects, arrays, strings with the standard single-character
escapes, decimal numbers without exponents, and the three literals. -/

/-- An opening curly brace (written via its code point to keep brace
characters out of literals). -/
def obr : Char := Char.ofNat 123

/-- A closing curly brace. -/
def cbr : Char := Char.ofNat 125

/-- A parsed JSON value; numbers are rationals, strings are `List Char`. -/
inductive JsonValue : Type where
  | null
  | bool (b : Bool)
  | num (q : ℚ)
  | str (s : List Char)
  | arr (xs : List JsonValue)
  | obj (fields : List (List Char × JsonValue))

/-- JSON whitespace. -/
def isJsonWs (c : Char) : Bool :=
  c = ' ' || c = '\n' || c = '\t' || c = '\r'

/-- Drop leading JSON whitespace. -/
def skipWs : List Char → List Char
  | [] => []
  | c :: cs => if isJsonWs c then skipWs cs else c :: cs

/-- Decode a single-character escape after a backslash. -/
def escChar (e : Char) : Option Char :=
  if e = 'n' then some '\n'
  else if e = 't' then some '\t'
  else if e = 'r' then some '\r'
  else if e = '"' then some '"'
  else if e = '\\' then some '\\'
  else if e = '/' then some '/'
  else if e = 'b' then some (Char.ofNat 8)
  else if e = 'f' then some (Char.ofNat 12)
  else none

/-- Parse the body of a JSON string (after the opening quote) up to and
including the closing quote; returns the decoded characters and the
remaining input. -/
def parseStringBody : List Char → Option (List Char × List Char)
  | [] => none
  | c :: cs =>
      if c = '"' then some ([], cs)
      else if c = '\\' then
        match cs with
        | [] => none
        | e :: cs2 =>
            match escChar e, parseStringBody cs2 with
            | some ec, some (s, rest) => some (ec :: s, rest)
            | _, _ => none
      else
        match parseStringBody cs with
        | some (s, rest) => some (c :: s, rest)
        | none => none

/-- Digit predicate. -/
def isDigitCh (c : Char) : Bool := '0' ≤ c && c ≤ '9'

/-- Decimal digits to a natural number. -/
def digitsToNat (ds : List Char) : Nat :=
  ds.foldl (fun n c => 10 * n + (c.toNat - 48)) 0

/-- Parse a JSON number (optional minus, integer part, optional decimal
fraction). -/
def parseNumber (cs : List Char) : Option (ℚ × List Char) :=
  let signed : Bool × List Char :=
    match cs with
    | '-' :: rest => (true, rest)
    | _ => (false, cs)
  let neg := signed.fst
  let cs1 := signed.snd
  let ds := cs1.takeWhile isDigitCh
  let cs2 := cs1.dropWhile isDigitCh
  if ds.isEmpty then none
  else
    match cs2 with
    | '.' :: cs3 =>
        let fs := cs3.takeWhile isDigitCh
        let cs4 := cs3.dropWhile isDigitCh
        if fs.isEmpty then none
        else
          let mag : ℚ :=
            (digitsToNat ds : ℚ) + (digitsToNat fs : ℚ) / ((10 : ℚ) ^ fs.length)
          some (if neg then -mag else mag, cs4)
    | _ =>
        let mag : ℚ := (digitsToNat ds : ℚ)
        some (if neg then -mag else mag, cs2)

mutual

/-- Parse one JSON value from the input (leading whitespace allowed);
`fuel` bounds the recursion depth. -/
def parseValue : Nat → List Char → Option (JsonValue × List Char)
  | 0, _ => none
  | fuel + 1, cs =>
      match skipWs cs with
      | 'n' :: 'u' :: 'l' :: 'l' :: rest => some (.null, rest)
      | 't' :: 'r' :: 'u' :: 'e' :: rest => some (.bool true, rest)
      | 'f' :: 'a' :: 'l' :: 's' :: 'e' :: rest => some (.bool false, rest)
      | '"' :: rest =>
          match parseStringBody rest with
          | some (s, rest2) => some (.str s, rest2)
          | none => none
      | c :: rest =>
          if c = obr then parseObjBody fuel (skipWs rest)
          else if c = '[' then parseArrBody fuel (skipWs rest)
          else
            match parseNumber (c :: rest) with
            | some (q, rest2) => some (.num q, rest2)
            | none => none
      | [] => none

/-- Parse an object body after the opening brace (whitespace already
skipped). -/
def parseObjBody : Nat → List Char → Option (JsonValue × List Char)
  | 0, _ => none
  | fuel + 1, cs =>
      match cs with
      | c :: rest =>
          if c = cbr then some (.obj [], rest)
          else
            match parseMembers fuel cs with
            | some (kvs, rest2) => some (.obj kvs, rest2)
            | none => none
      | [] => none

/-- Parse one or more `"key": value` members, consuming the closing
brace. -/
def parseMembers : Nat → List Char → Option (List (List Char × JsonValue) × List Char)
  | 0, _ => none
  | fuel + 1, cs =>
      match skipWs cs with
      | '"' :: rest =>
          match parseStringBody rest with
          | some (k, rest2) =>
              match skipWs rest2 with
              | ':' :: rest3 =>
                  match parseValue fuel rest3 with
                  | some (v, rest4) =>
                      match skipWs rest4 with
                      | ',' :: rest5 =>
                          match parseMembers fuel rest5 with
                          | some (kvs, rest6) => some ((k, v) :: kvs, rest6)
                          | none => none
                      | c :: rest5 =>
                          if c = cbr then some ([(k, v)], rest5) else none
                      | [] => none
                  | none => none
              | _ => none
          | none => none
      | _ => none

/-- Parse an array body after the opening bracket (whitespace already
skipped). -/
def parseArrBody : Nat → List Char → Option (JsonValue × List Char)
  | 0, _ => none
  | fuel + 1, cs =>
      match cs with
      | ']' :: rest => some (.arr [], rest)
      | _ =>
          match parseElems fuel cs with
          | some (vs, rest) => some (.arr vs, rest)
          | none => none

/-- Parse one or more array elements, consuming the closing bracket. -/
def parseElems : Nat → List Char → Option (List JsonValue × List Char)
  | 0, _ => none
  | fuel + 1, cs =>
      match parseValue fuel cs with
      | some (v, rest) =>
          match skipWs rest with
          | ',' :: rest2 =>
              match parseElems fuel rest2 with
              | some (vs, rest3) => some (v :: vs, rest3)
              | none => none
          | ']' :: rest2 => some ([v], rest2)
          | _ => none
      | none => none

end

/-- `JSON.parse`: parse one value and require only whitespace to remain.
The fuel `2 * length + 2` dominates the recursion depth of any input the
parser accepts. -/
def jsonParse (cs : List Char) : Option JsonValue :=
  match parseValue (2 * cs.length + 2) cs with
  | some (v, rest) => if (skipWs rest).isEmpty then some v else none
  | none => none

/-! ## `extractJsonFromLLMResponse` (`llm-helpers.ts`) -/

/-- The three failure kinds of `extractJsonFromLLMResponse`. -/
inductive ExtractErr where
  | noJson
  | parseFailed
  | schemaFailed
deriving DecidableEq, Repr

/-- `String.prototype.trim()` on the character list (JSON whitespace
subset). -/
def trimChars (cs : List Char) : List Char :=
  ((cs.dropWhile isJsonWs).reverse.dropWhile isJsonWs).reverse

/-- `jsonText.startsWith("{")`. -/
def startsWithBrace : List Char → Bool
  | c :: _ => c = obr
  | [] => false

/-- `indexOf` of a character (`none` for JS `-1`). -/
def firstIdxOf (c : Char) : List Char → Option Nat
  | [] => none
  | x :: xs => if x = c then some 0 else (firstIdxOf c xs).map (· + 1)

/-- `lastIndexOf` of a character (`none` for JS `-1`), computed from the
first occurrence in the reversed text. -/
def lastIdxOf (c : Char) (cs : List Char) : Option Nat :=
  match firstIdxOf c cs.reverse with
  | some k => some (cs.length - 1 - k)
  | none => none

/-- `jsonText.slice(i, j)`. -/
def sliceChars (cs : List Char) (i j : Nat) : List Char :=
  (cs.drop i).take (j - i)

/-- `extractJsonFromLLMResponse(responseText, schema?)`: trim; if the
text does not start with a brace, slice from the first brace to the last
closing brace (failing with the dedicated no-JSON error when either is
absent or the last `\x7d` is not after the first `\x7b`); then
`JSON.parse` and validate with the optional Zod schema.  The absent
schema is modelled by `fun v => Except.ok v`. -/
def extractJsonFromLLMResponse {α : Type} (schema : JsonValue → Except Unit α)
    (responseText : List Char) : Except ExtractErr α :=
  let t := trimChars responseText
  let jt : Except ExtractErr (List Char) :=
    if startsWithBrace t then .ok t
    else
      match firstIdxOf obr t, lastIdxOf cbr t with
      | some i, some j =>
          if i < j then .ok (sliceChars t i (j + 1)) else .error .noJson
      | _, _ => .error .noJson
  match jt with
  | .error e => .error e
  | .ok cs =>
      match jsonParse cs with
      | none => .error .parseFailed
      | some v =>
          match schema v with
          | .ok a => .ok a
          | .error _ => .error .schemaFailed

/-- The absent optional schema: return the parsed value unchanged. -/
def noSchema : JsonValue → Except Unit JsonValue := fun v => .ok v

/-! ## Query planning (`SearchQueriesSchema` and `generateQueriesNode`) -/

/-- String literal as a character list. -/
def strof (s : String) : List Char := s.data

/-- Property lookup on a parsed JSON object; with duplicate keys
`JSON.parse` keeps the last occurrence. -/
def jlookup (fields : List (List Char × JsonValue)) (k : List Char) :
    Option JsonValue :=
  (fields.reverse.find? (fun f => f.fst == k)).map (fun f => f.snd)

/-- Require every element of a JSON array to be a string
(`z.array(z.string())`). -/
def asStrings : List JsonValue → Option (List (List Char))
  | [] => some []
  | .str s :: rest => (asStrings rest).map (fun l => s :: l)
  | _ :: _ => none

/-- `SearchQueriesSchema.parse`: an object whose `queries` field is an
array of 3 to 5 strings.  The schema constrains only arity and element
type — there is no non-emptiness check on the strings. -/
def searchQueriesParse : JsonValue → Except Unit (List (List Char))
  | .obj fields =>
      match jlookup fields (strof "queries") with
      | some (.arr xs) =>
          match asStrings xs with
          | some qs =>
              if 3 ≤ qs.length ∧ qs.length ≤ 5 then .ok qs else .error ()
          | none => .error ()
      | _ => .error ()
  | _ => .error ()

/-- `generateQueriesNode`'s parsing of the LLM reply: trim the response
text, extract and validate; a failure of any kind becomes the node's
thrown `GenerationError` (here the `Except.error`). -/
def generateQueriesNode (reply : List Char) :
    Except ExtractErr (List (List Char)) :=
  extractJsonFromLLMResponse searchQueriesParse (trimChars reply)

/-! ## MongoDB save path (`mongodb-storage-tool.ts` and `saveNode`) -/

/-- The exceptions that can arise inside `_call`'s `try` block. -/
inductive MongoErr where
  | syntaxErr
  | typeErr
  | dbErr (msg : String)
deriving DecidableEq, Repr

/-- JS truthiness of a property-access result (`undefined` is `none`). -/
def jsTruthy : Option JsonValue → Bool
  | none => false
  | some .null => false
  | some (.bool b) => b
  | some (.num q) => !(q == 0)
  | some (.str s) => !s.isEmpty
  | some (.arr _) => true
  | some (.obj _) => true

/-- Property access `data.k` on a parsed JSON value: `undefined` on
non-objects (accessing a property of `null` throws and is handled by the
caller). -/
def jsonField : JsonValue → List Char → Option JsonValue
  | .obj fields, k => jlookup fields k
  | _, _ => none

/-- The `try` block of `MongoDBStorageTool._call(input)`: `JSON.parse`
the input (a failure is a `SyntaxError`; property access on a parsed
`null` throws a `TypeError`); missing or falsy `query`/`summary` fields
*return* an error string; otherwise the insert collaborator `db` either
throws or yields the inserted id.  The returned success string is
abbreviated to its fixed prefix. -/
def mongoBody (input : List Char) (db : Except String String) :
    Except MongoErr String :=
  match jsonParse input with
  | none => .error .syntaxErr
  | some .null => .error .typeErr
  | some data =>
      if !(jsTruthy (jsonField data (strof "query"))) ||
          !(jsTruthy (jsonField data (strof "summary"))) then
        .ok "Error: Input must contain \"query\" and \"summary\" fields."
      else
        match db with
        | .error e => .error (.dbErr e)
        | .ok insertedId =>
            .ok ("Successfully saved research to MongoDB with ID: " ++ insertedId)

/-- `MongoDBStorageTool._call`: the whole body is inside `try`/`catch`,
so every outcome — including a thrown database error — is returned as a
plain string; `_call` never rejects. -/
def mongoCall (input : List Char) (db : Except String String) : String :=
  match mongoBody input db with
  | .ok s => s
  | .error .syntaxErr => "Error: Invalid JSON input."
  | .error .typeErr => "Error saving to MongoDB: TypeError"
  | .error (.dbErr e) => "Error saving to MongoDB: " ++ e

/-- `saveNode`: `await this.storageTool._call(storageData)` with the
returned string discarded; the node returns its (empty) state update
normally. -/
def saveNode (storageData : List Char) (db : Except String String) :
    Except String Unit :=
  let _reply := mongoCall storageData db
  .ok ()

/-! ## Claim C1: relevance normalization in the filter stage -/

/-- Items of a regrouped result all come from the match being processed
or from the accumulator. -/
theorem regroupStep_items (origs : List SearchResult)
    (acc : List (String × SearchResult)) (m : ScoredMatch) :
    ∀ p ∈ regroupStep origs acc m, ∀ it ∈ p.snd.results,
      it = mkFilteredItem m ∨ ∃ p0 ∈ acc, it ∈ p0.snd.results := by
  intro p hp it hit
  unfold regroupStep at hp
  rcases List.mem_map.mp hp with ⟨p0, hp0, hfp⟩
  have hmem : p0 ∈ acc ∨ p0.snd.results = [] := by
    by_cases hc : acc.any (fun p => p.fst == m.value.query) = true
    · simp only [hc, if_true] at hp0
      exact Or.inl hp0
    · simp only [hc, if_false, Bool.false_eq_true] at hp0
      rcases hfind : origs.find? (fun r => r.query == m.value.query) with _ | o
      · rw [hfind] at hp0
        exact Or.inl hp0
      · rw [hfind] at hp0
        rcases List.mem_append.mp hp0 with h | h
        · exact Or.inl h
        · right
          rcases List.mem_singleton.mp h with rfl
          rfl
  by_cases hq : p0.fst == m.value.query
  · simp only [hq, if_true] at hfp
    subst hfp
    simp only at hit
    rcases List.mem_append.mp hit with h | h
    · rcases hmem with h0 | h0
      · exact Or.inr ⟨p0, h0, h⟩
      · rw [h0] at h
        cases h
    · exact Or.inl (List.mem_singleton.mp h)
  · simp only [hq, if_false, Bool.false_eq_true] at hfp
    subst hfp
    rcases hmem with h0 | h0
    · exact Or.inr ⟨p0, h0, hit⟩
    · rw [h0] at hit
      cases hit


/-- Folding matches from a set `U` through the regrouping loop keeps
every stored item the projection of some match in `U`. -/
theorem regroupFold_items (origs : List SearchResult) (U : ScoredMatch → Prop) :
    ∀ (ms : List ScoredMatch) (acc : List (String × SearchResult)),
      (∀ m ∈ ms, U m) →
      (∀ p ∈ acc, ∀ it ∈ p.snd.results, ∃ m0, U m0 ∧ it = mkFilteredItem m0) →
      ∀ p ∈ ms.foldl (regroupStep origs) acc, ∀ it ∈ p.snd.results,
        ∃ m0, U m0 ∧ it = mkFilteredItem m0 := by
  intro ms
  induction ms with
  | nil => intro acc _ hacc; exact hacc
  | cons m rest ih =>
      intro acc hU hacc
      have hstep : ∀ p ∈ regroupStep origs acc m, ∀ it ∈ p.snd.results,
          ∃ m0, U m0 ∧ it = mkFilteredItem m0 := by
        intro p hp it hit
        rcases regroupStep_items origs acc m p hp it hit with h | ⟨p0, hp0, h0⟩
        · exact ⟨m, hU m (List.mem_cons_self m rest), h⟩
        · exact hacc p0 hp0 it h0
      exact ih (regroupStep origs acc m)
        (fun m0 hm0 => hU m0 (List.mem_cons_of_mem m hm0)) hstep

/-- Every item of every group produced by `filterRegroup` is the pushed
projection of one of the similarity matches. -/
theorem filterRegroup_items (origs : List SearchResult)
    (ms : List ScoredMatch) :
    ∀ g ∈ filterRegroup origs ms, ∀ it ∈ g.results,
      ∃ m ∈ ms, it = mkFilteredItem m := by
  intro g hg it hit
  unfold filterRegroup at hg
  rcases List.mem_map.mp hg with ⟨p, hp, hfp⟩
  have := regroupFold_items origs (fun m => m ∈ ms) ms []
    (fun _ h => h) (by intro p hp; cases hp) p hp it (by rw [hfp]; exact hit)
  rcases this with ⟨m0, hm0, he⟩
  exact ⟨m0, hm0, he⟩

/-- The original `SearchResult` for the C1 counterexample group. -/
def c1Orig : SearchResult :=
  { query := "q1", results := [], summary := "s", timestamp := 0 }

/-- A similarity match carrying a raw score of `0`. -/
def c1Match : ScoredMatch :=
  { key := "k"
    value := { title := "T", url := "U", snippet := "S", query := "q1", summary := "s" }
    score := some 0 }

/-- C1 counterexample: a match that carries the score `0` is appended
with `relevanceScore = 5`, not `min(10, 0 * 10) = 0` — the JS conditional
`result.score ? … : 5` treats the present score `0` as falsy, so `5`
does not occur only for absent scores as the claim states. -/
theorem c1_zero_score_counterexample :
    filterRegroup [c1Orig] [c1Match] =
      [{ query := "q1"
         results := [{ title := "T", url := "U", snippet := "S", relevanceScore := some 5 }]
         summary := "s", timestamp := 0 }] ∧
    min (10 : ℚ) (0 * 10) = 0 ∧ (5 : ℚ) ≠ 0 := by
  refine ⟨by decide, by norm_num, by norm_num⟩

/-- C1 (amended): every item appended by the filter stage stores
`relevanceScore = min(10, score * 10)` when the match carries a nonzero
score, and `5` when the score is absent **or equal to `0`** (the
presence test is JS truthiness); concretely `0.73 ↦ 7.3`, `1.4 ↦ 10`
(clamped), `0 ↦ 5`, missing `↦ 5`. -/
theorem c1_relevance_normalization :
    (∀ origs ms, ∀ g ∈ filterRegroup origs ms, ∀ it ∈ g.results,
        ∃ m ∈ ms, it = mkFilteredItem m ∧
          it.relevanceScore = some (jsRelevance m.score)) ∧
    (∀ s : ℚ, s ≠ 0 → jsRelevance (some s) = min 10 (s * 10)) ∧
    jsRelevance (some (0.73 : ℚ)) = 7.3 ∧
    jsRelevance (some (1.4 : ℚ)) = 10 ∧
    jsRelevance (some 0) = 5 ∧
    jsRelevance none = 5 := by
  refine ⟨?_, ?_, by norm_num [jsRelevance], by norm_num [jsRelevance],
    by norm_num [jsRelevance], rfl⟩
  · intro origs ms g hg it hit
    rcases filterRegroup_items origs ms g hg it hit with ⟨m, hm, he⟩
    exact ⟨m, hm, he, by rw [he]; rfl⟩
  · intro s hs
    simp only [jsRelevance, hs, if_false]

/-! ## Claim C7: retry policy of the raw-result fetch -/

/-- C7: when every attempt's outcome is result-less (thrown, missing, or
empty), `getStructuredResults` makes exactly 3 attempts with a 3000 ms
sleep between consecutive attempts and returns an empty result list
instead of raising. -/
theorem c7_retry_then_empty (resp : Nat → AttemptOutcome)
    (h : ∀ n, badOutcome (resp n) = true) :
    getStructuredResults resp 5 =
      ([], [FetchEvent.attempt 1, FetchEvent.sleep 3000,
            FetchEvent.attempt 2, FetchEvent.sleep 3000,
            FetchEvent.attempt 3]) := by
  have hbad : ∀ n, (∃ e, resp n = Except.error e) ∨
      resp n = .ok none ∨ resp n = .ok (some []) := by
    intro n
    have hn := h n
    rcases hr : resp n with e | o
    · exact Or.inl ⟨e, rfl⟩
    · rcases o with _ | l
      · exact Or.inr (Or.inl rfl)
      · rcases l with _ | ⟨r, rs⟩
        · exact Or.inr (Or.inr rfl)
        · rw [hr] at hn; simp [badOutcome] at hn
  unfold getStructuredResults
  rcases hbad 1 with ⟨e1, h1⟩ | h1 | h1 <;> rcases hbad 2 with ⟨e2, h2⟩ | h2 | h2 <;>
    rcases hbad 3 with ⟨e3, h3⟩ | h3 | h3 <;>
      simp [fetchLoop, h1, h2, h3]

/-- An always-throwing search collaborator. -/
def alwaysThrow : Nat → AttemptOutcome := fun _ => .error "ECONNREFUSED"

/-- C7 witness: the retry theorem at a collaborator that throws on every
attempt. -/
theorem c7_retry_then_empty_witness :
    (∀ n, badOutcome (alwaysThrow n) = true) ∧
    getStructuredResults alwaysThrow 5 =
      ([], [FetchEvent.attempt 1, FetchEvent.sleep 3000,
            FetchEvent.attempt 2, FetchEvent.sleep 3000,
            FetchEvent.attempt 3]) :=
  ⟨fun _ => rfl, c7_retry_then_empty alwaysThrow (fun _ => rfl)⟩

/-! ## Claim C8: `clearNamespace` must remove all namespace entries -/

/-- C8 (the code violates the claim): `clearNamespace` is the identity on
the store, so an entry indexed before the clear is still retrievable by
`getById` afterwards, for every store, namespace, id and value; in
particular a freshly put entry survives the clear. -/
theorem c8_clearNamespace_noop :
    (∀ (s : VStore Nat) (ns : List String) (id : String),
        storeGet (clearNamespace s) ns id = storeGet s ns id) ∧
    storeGet (clearNamespace (storePut ([] : VStore Nat) ["research", "ai"] "item0" 7))
      ["research", "ai"] "item0" = some 7 := by
  exact ⟨fun _ _ _ => rfl, by decide⟩

/-! ## Claim C3: failures of the final save are swallowed, not fatal -/

/-- A well-formed `storageData` payload as `saveNode` serializes it
(braces written via code points). -/
def c3Input : List Char :=
  [obr] ++ strof "\"query\":\"t\",\"summary\":\"s\",\"sources\":[]" ++ [cbr]

/-- C3 counterexample: with a database insert that throws, `saveNode`
still completes normally — `_call` catches the throw and returns an
error string which `saveNode` discards — so the caller observes a
normally completed run, contradicting the claim that the error is
propagated and fatal. -/
theorem c3_swallowed_counterexample :
    saveNode c3Input (Except.error "connection refused") = Except.ok () ∧
    mongoCall c3Input (Except.error "connection refused") =
      "Error saving to MongoDB: connection refused" ∧
    mongoCall (strof "not json") (Except.error "connection refused") =
      "Error: Invalid JSON input." := by
  refine ⟨rfl, ?_, rfl⟩
  rfl

/-- C3 (amended): the save stage never propagates an error: for every
serialized payload and every database outcome — including invalid JSON,
missing fields and a thrown insert — `_call` returns a plain string and
`saveNode` completes normally. -/
theorem c3_save_never_throws (input : List Char) (db : Except String String) :
    saveNode input db = Except.ok () := rfl

/-! ## Claim C6: at most one outbound search per distinct query -/

/-- Appending one cache entry extends the `has` check disjunctively. -/
theorem cacheHas_append (cache : List (String × SearchResult))
    (e : String × SearchResult) (q : String) :
    cacheHas (cache ++ [e]) q = (cacheHas cache q || (e.fst == q)) := by
  simp [cacheHas, List.any_append]

/-- A `_call` for any query never evicts: a cached query stays cached. -/
theorem toolCallStep_preserves_has (oracle : String → Except String SearchResult)
    (cache : List (String × SearchResult)) (q q' : String)
    (h : cacheHas cache q = true) :
    cacheHas (toolCallStep oracle cache q').fst q = true := by
  unfold toolCallStep
  by_cases hc : cacheHas cache q' = true
  · simp [hc, h]
  · rcases ho : oracle q' with e | r
    · simp [hc, ho, h]
    · simp [hc, ho, cacheHas_append, h]

/-- Once a query is cached, later `_call`s issue no outbound call for it. -/
theorem toolRun_count_zero_of_cached (oracle : String → Except String SearchResult)
    (q : String) :
    ∀ (qs : List String) (cache), cacheHas cache q = true →
      ((toolRun oracle cache qs).snd.count q) = 0 := by
  intro qs
  induction qs with
  | nil => intro cache h; simp [toolRun]
  | cons q' rest ih =>
      intro cache h
      unfold toolRun
      simp only [List.count_append]
      rw [ih _ (toolCallStep_preserves_has oracle cache q q' h)]
      have hne : ¬ (q' = q) ∨ cacheHas cache q' = true := by
        by_cases hq : q' = q
        · subst hq; exact Or.inr h
        · exact Or.inl hq
      unfold toolCallStep
      rcases hne with hq | hq
      · by_cases hc : cacheHas cache q' = true
        · simp [hc]
        · rcases ho : oracle q' with e | r <;>
            simp [hc, ho, List.count_singleton, hq, Ne.symm hq]
      · simp [hq]

/-- An always-throwing search collaborator (e.g. the summarizing LLM is
down). -/
def failOracle : String → Except String SearchResult :=
  fun _ => .error "LLM unavailable"

/-- C6 counterexample: when the underlying search throws, nothing is
cached, so requesting the same query twice on one instance issues two
outbound calls — the claim's "exactly one outbound call per distinct
query" fails for queries whose search fails. -/
theorem c6_failure_recalls_counterexample :
    ((toolRun failOracle [] ["q", "q"]).snd = ["q", "q"]) ∧
    ((toolRun failOracle [] ["q", "q"]).snd.count "q" = 2) := by
  exact ⟨rfl, rfl⟩

/-- C6 (amended): provided the search collaborator succeeds for a query,
a `SearchAgentTool` instance issues exactly one outbound call for it over
any sequence of `_call`s containing it — the first miss populates the
cache and every later occurrence is a cache hit with no outbound call. -/
theorem c6_cache_single_outbound (oracle : String → Except String SearchResult)
    (q : String) (r : SearchResult) (hok : oracle q = .ok r) :
    ∀ (qs : List String) (cache), cacheHas cache q = false → q ∈ qs →
      ((toolRun oracle cache qs).snd.count q) = 1 := by
  intro qs
  induction qs with
  | nil => intro cache _ hm; cases hm
  | cons q' rest ih =>
      intro cache hmiss hm
      unfold toolRun
      simp only [List.count_append]
      by_cases hq : q' = q
      · subst hq
        unfold toolCallStep
        rw [hmiss]
        simp only [hok, Bool.false_eq_true, if_false]
        have hcached : cacheHas (cache ++ [(q', r)]) q' = true := by
          simp [cacheHas_append]
        rw [toolRun_count_zero_of_cached oracle q' rest _ hcached]
        simp
      · have hmem : q ∈ rest := by
          rcases List.mem_cons.mp hm with h | h
          · exact absurd h.symm hq
          · exact h
        unfold toolCallStep
        by_cases hc : cacheHas cache q' = true
        · simp only [hc, if_true]
          rw [ih cache hmiss hmem]
          simp
        · rcases ho : oracle q' with e | r'
          · simp only [hc, Bool.false_eq_true, if_false, ho]
            rw [ih cache hmiss hmem]
            simp [List.count_singleton, hq]
          · simp only [hc, Bool.false_eq_true, if_false, ho]
            have hmiss2 : cacheHas (cache ++ [(q', r')]) q = false := by
              simp [cacheHas_append, hmiss]
              exact fun h => absurd h hq
            rw [ih _ hmiss2 hmem]
            simp [List.count_singleton, hq]

/-- A fixed successful search result for the C6 witness. -/
def c6Result : SearchResult :=
  { query := "q", results := [], summary := "ok", timestamp := 0 }

/-- An always-succeeding search collaborator. -/
def okOracle : String → Except String SearchResult := fun _ => .ok c6Result

/-- C6 witness: a duplicate query against a succeeding collaborator
issues exactly one outbound call, starting from the fresh instance's
empty cache. -/
theorem c6_cache_single_outbound_witness :
    okOracle "q" = .ok c6Result ∧ cacheHas [] "q" = false ∧ "q" ∈ ["q", "q"] ∧
    ((toolRun okOracle [] ["q", "q"]).snd.count "q") = 1 :=
  ⟨rfl, rfl, by decide,
    c6_cache_single_outbound okOracle "q" c6Result rfl ["q", "q"] [] rfl (by decide)⟩

/-! ## Claim C10: a failed search resolves to `undefined` and is pushed -/

/-- A query absent from the cache has no retrievable entry. -/
theorem cacheGet_eq_none (cache : List (String × SearchResult)) (q : String)
    (h : cacheHas cache q = false) : cacheGet cache q = none := by
  unfold cacheGet
  rw [List.find?_eq_none.mpr]
  · rfl
  · intro p hp hpq
    have : cache.any (fun p => p.fst == q) = true := List.any_eq_true.mpr ⟨p, hp, hpq⟩
    rw [cacheHas] at h
    rw [this] at h
    cases h

/-- C10: when the underlying search for an uncached query throws,
`getStructuredResult` resolves normally to `none` (JS `undefined`) —
`_call` caught the error and cached nothing, and the non-null assertion
hides the absent entry — and `searchNode` pushes that `none` into the
accumulated `searchResults` list. -/
theorem c10_error_pushes_undefined (oracle : String → Except String SearchResult)
    (cache : List (String × SearchResult)) (q : String) (e : String)
    (qs : List String)
    (herr : oracle q = .error e) (hmiss : cacheHas cache q = false) :
    (getStructuredResult oracle cache q).snd = none ∧
    (searchNodeRun oracle cache (q :: qs)).snd.head? = some none := by
  have hget : (getStructuredResult oracle cache q).snd = none := by
    unfold getStructuredResult toolCallStep
    simp only [hmiss, Bool.false_eq_true, if_false, herr]
    exact cacheGet_eq_none cache q hmiss
  refine ⟨hget, ?_⟩
  unfold searchNodeRun
  simp [hget]

/-- C10 witness: the failing-search scenario at a concrete query with a
fresh cache. -/
theorem c10_error_pushes_undefined_witness :
    failOracle "q" = .error "LLM unavailable" ∧ cacheHas [] "q" = false ∧
    (getStructuredResult failOracle [] "q").snd = none ∧
    (searchNodeRun failOracle [] ["q"]).snd.head? = some none := by
  refine ⟨rfl, rfl, ?_, ?_⟩
  · exact (c10_error_pushes_undefined failOracle [] "q" "LLM unavailable" [] rfl rfl).1
  · exact (c10_error_pushes_undefined failOracle [] "q" "LLM unavailable" [] rfl rfl).2

/-! ## Claims C4 and C5: `collectSources` dedup, ranking and stability -/

/-- Stability of `orderedInsert` expressed through filters: the
equal-relevance slice gains the inserted element at its front exactly
when the element has that relevance. -/
theorem filter_orderedInsert_rel (c : ℚ) (x : Source) :
    ∀ l : List Source,
      (l.orderedInsert relDesc x).filter (fun s => s.relevance == c) =
        if x.relevance = c then x :: l.filter (fun s => s.relevance == c)
        else l.filter (fun s => s.relevance == c) := by
  intro l
  induction l with
  | nil =>
      by_cases hx : x.relevance = c <;>
        simp [List.orderedInsert, List.filter_cons, hx]
  | cons b bs ih =>
      by_cases hr : relDesc x b
      · rw [List.orderedInsert_of_le relDesc bs hr]
        by_cases hx : x.relevance = c <;>
          simp [List.filter_cons, hx]
      · have hordered : (b :: bs).orderedInsert relDesc x =
            b :: bs.orderedInsert relDesc x := by
          simp [List.orderedInsert, hr]
        rw [hordered]
        by_cases hx : x.relevance = c
        · have hb : ¬ (b.relevance = c) := by
            intro hbc
            exact hr (by unfold relDesc; rw [hbc, hx])
          simp [List.filter_cons, hb, ih, hx]
        · by_cases hb : b.relevance = c <;>
            simp [List.filter_cons, hb, ih, hx]

/-- The stable sort preserves each equal-relevance slice of the input in
its original order. -/
theorem filter_insertionSort_rel (c : ℚ) :
    ∀ l : List Source,
      (l.insertionSort relDesc).filter (fun s => s.relevance == c) =
        l.filter (fun s => s.relevance == c) := by
  intro l
  induction l with
  | nil => rfl
  | cons a as ih =>
      simp only [List.insertionSort]
      rw [filter_orderedInsert_rel]
      by_cases ha : a.relevance = c <;> simp [List.filter_cons, ha, ih]

/-- Filtering a prefix yields a prefix of the filtered list. -/
theorem filter_take_exists {α : Type} (p : α → Bool) :
    ∀ (l : List α) (n : Nat), ∃ k, (l.take n).filter p = (l.filter p).take k := by
  intro l
  induction l with
  | nil => intro n; exact ⟨0, by simp⟩
  | cons a as ih =>
      intro n
      cases n with
      | zero => exact ⟨0, by simp⟩
      | succ m =>
          rcases ih m with ⟨k, hk⟩
          by_cases hp : p a = true
          · exact ⟨k + 1, by simp [List.take_succ_cons, List.filter_cons, hp, hk]⟩
          · exact ⟨k, by simp [List.take_succ_cons, List.filter_cons, hp, hk]⟩

/-- The dedup loop never introduces a duplicate url. -/
theorem insSource_nodup (acc : List Source) (it : RawItem)
    (h : (acc.map (fun s => s.url)).Nodup) :
    ((insSource acc it).map (fun s => s.url)).Nodup := by
  unfold insSource
  by_cases hc : acc.any (fun s => s.url == it.url) = true
  · simp [hc, h]
  · simp only [hc, Bool.false_eq_true, if_false, List.map_append]
    rw [List.nodup_append]
    refine ⟨h, by simp, ?_⟩
    intro u hu
    simp only [List.map_cons, List.map_nil, List.mem_singleton, mkSource]
    intro hu2
    rcases List.mem_map.mp hu with ⟨s, hs, hsu⟩
    apply hc
    exact List.any_eq_true.mpr ⟨s, hs, by rw [hsu, hu2]; exact beq_self_eq_true _⟩

/-- Folding items through the dedup loop preserves url uniqueness. -/
theorem foldl_insSource_nodup :
    ∀ (items : List RawItem) (acc : List Source),
      (acc.map (fun s => s.url)).Nodup →
      ((items.foldl insSource acc).map (fun s => s.url)).Nodup := by
  intro items
  induction items with
  | nil => exact fun acc h => h
  | cons it rest ih => exact fun acc h => ih _ (insSource_nodup acc it h)

/-- The deduplicated source map has pairwise-distinct urls. -/
theorem collectDedup_nodup (groups : List SearchResult) :
    ((collectDedup groups).map (fun s => s.url)).Nodup := by
  unfold collectDedup
  have key : ∀ (gs : List SearchResult) (acc : List Source),
      (acc.map (fun s => s.url)).Nodup →
      ((gs.foldl (fun acc g => g.results.foldl insSource acc) acc).map
        (fun s => s.url)).Nodup := by
    intro gs
    induction gs with
    | nil => exact fun acc h => h
    | cons g rest ih => exact fun acc h => ih _ (foldl_insSource_nodup _ _ h)
  exact key groups [] (by simp)

/-- C4: for every list of aggregated groups, `topSources` has at most 15
entries, is non-increasing by relevance, contains each url at most once,
and each equal-relevance slice is an initial segment of that slice of
the url map in insertion order (the stable tie-break). -/
theorem c4_topSources_ranking (groups : List SearchResult) :
    (collectSources groups).length ≤ 15 ∧
    (collectSources groups).Pairwise (fun a b => b.relevance ≤ a.relevance) ∧
    ((collectSources groups).map (fun s => s.url)).Nodup ∧
    (∀ c : ℚ, ∃ k,
      (collectSources groups).filter (fun s => s.relevance == c) =
        ((collectDedup groups).filter (fun s => s.relevance == c)).take k) := by
  refine ⟨?_, ?_, ?_, ?_⟩
  · unfold collectSources
    rw [List.length_take]
    exact min_le_left _ _
  · unfold collectSources
    have hs := List.sorted_insertionSort relDesc (collectDedup groups)
    exact List.Pairwise.sublist (List.take_sublist _ _) hs
  · unfold collectSources
    have hperm : List.Perm ((collectDedup groups).insertionSort relDesc)
        (collectDedup groups) :=
      List.perm_insertionSort relDesc _
    have hnodup : (((collectDedup groups).insertionSort relDesc).map
        (fun s => s.url)).Nodup :=
      ((hperm.map (fun s => s.url)).nodup_iff).mpr (collectDedup_nodup groups)
    exact hnodup.sublist (List.Sublist.map _ (List.take_sublist _ _))
  · intro c
    unfold collectSources
    rcases filter_take_exists (fun s => s.relevance == c)
      ((collectDedup groups).insertionSort relDesc) 15 with ⟨k, hk⟩
    exact ⟨k, by rw [hk, filter_insertionSort_rel]⟩

/-- `find?` with no match on the left of `Option.or`. -/
theorem find?_none_iff_any_false {α : Type} (p : α → Bool) (l : List α) :
    l.find? p = none ↔ l.any p = false := by
  constructor
  · intro h
    rw [← Bool.not_eq_true, List.any_eq_true]
    rintro ⟨x, hx, hpx⟩
    exact (List.find?_eq_none.mp h x hx) hpx
  · intro h
    rw [List.find?_eq_none]
    intro x hx hpx
    have : l.any p = true := List.any_eq_true.mpr ⟨x, hx, hpx⟩
    rw [this] at h
    cases h

/-- The entry kept for a url by the dedup fold is the accumulator's, or
else the first item of the input with that url. -/
theorem find?_foldl_insSource (u : String) :
    ∀ (items : List RawItem) (acc : List Source),
      ((items.foldl insSource acc).find? (fun s => s.url == u)) =
        ((acc.find? (fun s => s.url == u)).or
          ((items.find? (fun it => it.url == u)).map mkSource)) := by
  intro items
  induction items with
  | nil =>
      intro acc
      cases h : acc.find? (fun s => s.url == u) <;> simp [h, Option.or]
  | cons it rest ih =>
      intro acc
      simp only [List.foldl_cons]
      rw [ih (insSource acc it)]
      by_cases hu : it.url = u
      · cases hacc : acc.find? (fun s => s.url == u) with
        | some s =>
            have hsacc := List.mem_of_find?_eq_some hacc
            have hps := List.find?_some hacc
            have hany : acc.any (fun s => s.url == it.url) = true := by
              refine List.any_eq_true.mpr ⟨s, hsacc, ?_⟩
              rw [hu]
              exact hps
            have hins : insSource acc it = acc := by
              unfold insSource
              rw [hany]
              simp
            rw [hins, hacc]
            simp [Option.or, List.find?_cons, hu]
        | none =>
            have hany : acc.any (fun s => s.url == it.url) = false := by
              rw [← find?_none_iff_any_false]
              rw [hu]
              exact hacc
            have hins : insSource acc it = acc ++ [mkSource it] := by
              unfold insSource
              rw [hany]
              simp
            rw [hins, List.find?_append, hacc]
            have hfind1 : List.find? (fun s => s.url == u) [mkSource it] =
                some (mkSource it) := by
              simp [List.find?_cons, mkSource, hu]
            rw [hfind1]
            simp [Option.or, List.find?_cons, mkSource, hu]
      · have hne : ((it.url == u) : Bool) = false := by
          simp [hu]
        have hsame : (insSource acc it).find? (fun s => s.url == u) =
            acc.find? (fun s => s.url == u) := by
          unfold insSource
          by_cases hc : acc.any (fun s => s.url == it.url) = true
          · rw [hc]; simp
          · simp only [Bool.not_eq_true] at hc
            rw [hc]
            simp only [Bool.false_eq_true, if_false]
            rw [List.find?_append]
            have : List.find? (fun s => s.url == u) [mkSource it] = none := by
              simp [List.find?_cons, mkSource, hne]
            rw [this]
            cases acc.find? (fun s => s.url == u) <;> simp [Option.or]
        rw [hsame]
        have : List.find? (fun it2 => it2.url == u) (it :: rest) =
            List.find? (fun it2 => it2.url == u) rest := by
          simp [List.find?_cons, hne]
        rw [this]

/-- The nested group/item iteration is the dedup fold over the items in
group-then-item order. -/
theorem collectDedup_eq_flat (groups : List SearchResult) :
    collectDedup groups = (groups.flatMap (fun g => g.results)).foldl insSource [] := by
  unfold collectDedup
  have key : ∀ (gs : List SearchResult) (acc : List Source),
      gs.foldl (fun acc g => g.results.foldl insSource acc) acc =
        (gs.flatMap (fun g => g.results)).foldl insSource acc := by
    intro gs
    induction gs with
    | nil => intro acc; simp
    | cons g rest ih =>
        intro acc
        simp only [List.flatMap_cons, List.foldl_cons, List.foldl_append]
        exact ih _
  exact key groups []

/-- Two groups whose single items share url `http://a` with relevances 6
then 9, in that order. -/
def c5Groups : List SearchResult :=
  [{ query := "q1"
     results := [{ title := "t1", url := "http://a", snippet := "s1", relevanceScore := some 6 }]
     summary := "", timestamp := 0 },
   { query := "q2"
     results := [{ title := "t2", url := "http://a", snippet := "s2", relevanceScore := some 9 }]
     summary := "", timestamp := 0 }]

/-- C5: the `Source` kept for each url is exactly the first item bearing
that url in group-then-item iteration order (first-seen wins for title
and relevance; later duplicates are discarded, not merged); in
particular relevances 6 then 9 on the shared url yield the single source
with relevance 6. -/
theorem c5_first_seen_wins :
    (∀ (groups : List SearchResult) (u : String),
      ((collectDedup groups).find? (fun s => s.url == u)) =
        (((groups.flatMap (fun g => g.results)).find?
            (fun it => it.url == u)).map mkSource)) ∧
    collectSources c5Groups =
      [{ url := "http://a", title := "t1", relevance := 6 }] := by
  constructor
  · intro groups u
    rw [collectDedup_eq_flat, find?_foldl_insSource]
    simp [Option.or]
  · decide

/-! ## Claim C2: query-planning arity and non-emptiness -/

/-- A reply whose `queries` array has valid arity but contains an empty
string. -/
def c2Reply : List Char :=
  [obr] ++ strof "\"queries\":[\"\",\"a\",\"b\"]" ++ [cbr]

/-- C2 counterexample: the schema accepts a `queries` array containing
the empty string — `generateQueriesNode` returns it as a query rather
than rejecting the reply as a schema-validation failure, so the planner
can return a query that is empty after trimming. -/
theorem c2_empty_query_accepted_counterexample :
    generateQueriesNode c2Reply = .ok [[], ['a'], ['b']] ∧
    trimChars [] = [] := by
  exact ⟨rfl, rfl⟩

/-- A successful extraction passed some parsed value through the schema. -/
theorem extractJson_ok_schema {α : Type} (sch : JsonValue → Except Unit α)
    (s : List Char) (a : α)
    (h : extractJsonFromLLMResponse sch s = .ok a) :
    ∃ v : JsonValue, sch v = .ok a := by
  unfold extractJsonFromLLMResponse at h
  by_cases hb : startsWithBrace (trimChars s) = true
  · simp only [hb, if_true] at h
    rcases hj : jsonParse (trimChars s) with _ | v
    · rw [hj] at h; cases h
    · rw [hj] at h
      dsimp only at h
      rcases hs : sch v with e | b
      · rw [hs] at h; cases h
      · rw [hs] at h
        cases h
        exact ⟨v, hs⟩
  · simp only [Bool.not_eq_true] at hb
    simp only [hb, Bool.false_eq_true, if_false] at h
    rcases h1 : firstIdxOf obr (trimChars s) with _ | i <;>
      rcases h2 : lastIdxOf cbr (trimChars s) with _ | j <;>
        rw [h1, h2] at h
    · cases h
    · cases h
    · cases h
    · by_cases hij : i < j
      · simp only [hij, if_true] at h
        rcases hj : jsonParse (sliceChars (trimChars s) i (j + 1)) with _ | v
        · rw [hj] at h; cases h
        · rw [hj] at h
          dsimp only at h
          rcases hs : sch v with e | b
          · rw [hs] at h; cases h
          · rw [hs] at h
            cases h
            exact ⟨v, hs⟩
      · simp only [hij, if_false] at h
        cases h

/-- The queries schema only ever accepts arrays of 3 to 5 strings. -/
theorem searchQueriesParse_bounds (v : JsonValue) (qs : List (List Char))
    (h : searchQueriesParse v = .ok qs) : 3 ≤ qs.length ∧ qs.length ≤ 5 := by
  unfold searchQueriesParse at h
  rcases v with _ | b | q | s | xs | fields
  · cases h
  · cases h
  · cases h
  · cases h
  · cases h
  · dsimp only at h
    rcases hlk : jlookup fields (strof "queries") with _ | w
    · rw [hlk] at h; cases h
    · rw [hlk] at h
      rcases w with _ | b | q | s | xs | f2
      · cases h
      · cases h
      · cases h
      · cases h
      · dsimp only at h
        rcases has : asStrings xs with _ | qs2
        · rw [has] at h; cases h
        · rw [has] at h
          dsimp only at h
          by_cases hcond : 3 ≤ qs2.length ∧ qs2.length ≤ 5
          · simp only [hcond, if_true] at h
            cases h
            exact hcond
          · simp only [hcond, if_false] at h
            cases h
      · cases h

/-- C2 (amended): for every LLM reply, the query-planning node either
fails (the node throws `GenerationError`) or returns between 3 and 5
query strings; the schema checks only arity and element type, so the
returned strings may be empty or whitespace-only. -/
theorem c2_query_arity (reply : List Char) (qs : List (List Char))
    (h : generateQueriesNode reply = .ok qs) :
    3 ≤ qs.length ∧ qs.length ≤ 5 := by
  unfold generateQueriesNode at h
  rcases extractJson_ok_schema searchQueriesParse (trimChars reply) qs h with ⟨v, hs⟩
  exact searchQueriesParse_bounds v qs hs

/-- A well-formed three-query reply. -/
def c2Good : List Char :=
  [obr] ++ strof "\"queries\":[\"a\",\"b\",\"c\"]" ++ [cbr]

/-- C2 witness: the arity theorem applied to a concrete well-formed
reply. -/
theorem c2_query_arity_witness :
    generateQueriesNode c2Good = .ok [['a'], ['b'], ['c']] ∧
    (3 ≤ ([['a'], ['b'], ['c']] : List (List Char)).length ∧
      ([['a'], ['b'], ['c']] : List (List Char)).length ≤ 5) :=
  ⟨rfl, c2_query_arity c2Good [['a'], ['b'], ['c']] rfl⟩

/-- C1 witness: the nonzero-score clause of the normalization theorem at
the concrete score `0.73`. -/
theorem c1_relevance_normalization_witness :
    (0.73 : ℚ) ≠ 0 ∧ jsRelevance (some (0.73 : ℚ)) = min 10 ((0.73 : ℚ) * 10) :=
  ⟨by norm_num, c1_relevance_normalization.2.1 (0.73 : ℚ) (by norm_num)⟩

/-! ## Claim C9: locating the JSON object inside an LLM reply -/

/-- A reply that IS a JSON object followed by trailing text. -/
def c9Reply : List Char := [obr] ++ strof "\"a\":1" ++ [cbr] ++ strof " x"

/-- C9 counterexample: a reply consisting of a valid JSON object with
trailing non-JSON text *starts with* a brace after trimming, so the code
skips brace-extraction entirely, feeds the whole reply to `JSON.parse`,
and fails with the parse error — it does not locate the balanced
`\x7b...\x7d` substring as the claim states. -/
theorem c9_trailing_text_counterexample :
    extractJsonFromLLMResponse noSchema c9Reply = .error .parseFailed ∧
    jsonParse ([obr] ++ strof "\"a\":1" ++ [cbr]) = some (JsonValue.obj [(['a'], JsonValue.num 1)]) := by
  exact ⟨rfl, rfl⟩

/-- A found first index points at the character. -/
theorem firstIdxOf_get (c : Char) :
    ∀ (l : List Char) (i : Nat), firstIdxOf c l = some i → l.get? i = some c := by
  intro l
  induction l with
  | nil => intro i h; cases h
  | cons x xs ih =>
      intro i h
      unfold firstIdxOf at h
      by_cases hx : x = c
      · simp only [hx, if_true] at h
        cases h
        simp [hx]
      · simp only [hx, if_false] at h
        rcases hrec : firstIdxOf c xs with _ | k
        · rw [hrec] at h; cases h
        · rw [hrec] at h
          have h2 : some (k + 1) = some i := h
          injection h2 with h3
          subst h3
          simpa using ih k hrec

/-- Any occurrence bounds the first index from above. -/
theorem firstIdxOf_le (c : Char) :
    ∀ (l : List Char) (j : Nat), l.get? j = some c →
      ∃ i, firstIdxOf c l = some i ∧ i ≤ j := by
  intro l
  induction l with
  | nil => intro j h; simp at h
  | cons x xs ih =>
      intro j h
      unfold firstIdxOf
      by_cases hx : x = c
      · exact ⟨0, by simp [hx], Nat.zero_le j⟩
      · cases j with
        | zero =>
            rw [List.get?_cons_zero] at h
            injection h with h
            exact absurd h hx
        | succ m =>
            simp only [List.get?_cons_succ] at h
            rcases ih m h with ⟨i, hi, hle⟩
            exact ⟨i + 1, by simp [hx, hi], Nat.succ_le_succ hle⟩

/-- The first index in `pre ++ rest` when `pre` misses the character and
`rest` starts with it. -/
theorem firstIdxOf_append (c : Char) (pre rest : List Char)
    (hpre : c ∉ pre) (hhead : rest.head? = some c) :
    firstIdxOf c (pre ++ rest) = some pre.length := by
  induction pre with
  | nil =>
      rcases rest with _ | ⟨r, rs⟩
      · cases hhead
      · simp only [List.head?] at hhead
        cases hhead
        simp [firstIdxOf]
  | cons x xs ih =>
      have hx : ¬ (x = c) := fun he => hpre (he ▸ List.mem_cons_self x xs)
      have hxs : c ∉ xs := fun hm => hpre (List.mem_cons_of_mem x hm)
      have hstep : firstIdxOf c (x :: (xs ++ rest)) =
          (firstIdxOf c (xs ++ rest)).map (· + 1) := by
        rw [firstIdxOf, if_neg hx]
      rw [List.cons_append, hstep, ih hxs]
      simp

/-- A found last index points at the character. -/
theorem lastIdxOf_get (c : Char) (l : List Char) (j : Nat)
    (h : lastIdxOf c l = some j) : l.get? j = some c := by
  unfold lastIdxOf at h
  rcases hf : firstIdxOf c l.reverse with _ | k
  · rw [hf] at h; cases h
  · rw [hf] at h
    injection h with h2
    subst h2
    have hget := firstIdxOf_get c l.reverse k hf
    have hk : k < l.length := by
      rcases List.get?_eq_some.mp hget with ⟨hlt, _⟩
      simpa using hlt
    rw [List.get?_reverse hk] at hget
    exact hget

/-- Any occurrence bounds the last index from below. -/
theorem lastIdxOf_ge (c : Char) (l : List Char) (j : Nat)
    (h : l.get? j = some c) :
    ∃ j2, lastIdxOf c l = some j2 ∧ j ≤ j2 := by
  have hj : j < l.length := by
    rcases List.get?_eq_some.mp h with ⟨hlt, _⟩
    exact hlt
  have hrev : l.reverse.get? (l.length - 1 - j) = some c := by
    have hlt : l.length - 1 - j < l.length := by omega
    rw [List.get?_reverse (by simpa using hlt)]
    have : l.length - 1 - (l.length - 1 - j) = j := by omega
    rw [this]
    exact h
  rcases firstIdxOf_le c l.reverse (l.length - 1 - j) hrev with ⟨i, hi, hle⟩
  refine ⟨l.length - 1 - i, ?_, by omega⟩
  unfold lastIdxOf
  rw [hi]

/-- The last index in `pre ++ json ++ post` when `post` misses the
character and `json` ends with it. -/
theorem lastIdxOf_append (c : Char) (pre json post : List Char)
    (hpost : c ∉ post) (hlast : json.getLast? = some c) :
    lastIdxOf c (pre ++ json ++ post) = some (pre.length + json.length - 1) := by
  have hjne : json ≠ [] := by
    intro he
    rw [he] at hlast
    cases hlast
  have hrev : (pre ++ json ++ post).reverse =
      post.reverse ++ (json.reverse ++ pre.reverse) := by
    simp [List.reverse_append]
  have hhead : (json.reverse ++ pre.reverse).head? = some c := by
    rw [List.head?_append]
    rw [List.head?_reverse, hlast]
    rfl
  have hpostrev : c ∉ post.reverse := by simpa using hpost
  have hfi : firstIdxOf c (pre ++ json ++ post).reverse = some post.length := by
    rw [hrev, firstIdxOf_append c post.reverse _ hpostrev hhead]
    simp
  have hjlen : 1 ≤ json.length := by
    rcases json with _ | ⟨a, rest⟩
    · exact absurd rfl hjne
    · simp
  unfold lastIdxOf
  rw [hfi]
  dsimp only
  have harith : (pre ++ json ++ post).length - 1 - post.length =
      pre.length + json.length - 1 := by
    simp only [List.length_append]
    omega
  rw [harith]

/-- When the trimmed reply does not start with a brace, and a valid JSON
object sits between brace-free leading text and close-brace-free trailing
text, the extraction slices out exactly that object, parses it, and runs
the schema on the parsed value. -/
theorem extract_slices_surrounded {α : Type} (sch : JsonValue → Except Unit α)
    (s pre json post : List Char) (v : JsonValue)
    (ht : trimChars s = pre ++ json ++ post)
    (hpre_ne : pre ≠ [])
    (hpre : obr ∉ pre)
    (hpost : cbr ∉ post)
    (hhead : json.head? = some obr)
    (hlast : json.getLast? = some cbr)
    (hparse : jsonParse json = some v) :
    extractJsonFromLLMResponse sch s =
      (match sch v with
       | .ok a => .ok a
       | .error _ => .error .schemaFailed) := by
  have hobrcbr : obr ≠ cbr := by decide
  have hjlen : 2 ≤ json.length := by
    rcases json with _ | ⟨a, rest⟩
    · cases hhead
    · rcases rest with _ | ⟨b, rest2⟩
      · exfalso
        rw [List.head?] at hhead
        injection hhead with ha
        rw [List.getLast?] at hlast
        injection hlast with hb
        exact hobrcbr (ha ▸ hb ▸ rfl)
      · simp
  have hsw : startsWithBrace (trimChars s) = false := by
    rcases pre with _ | ⟨p, pre2⟩
    · exact absurd rfl hpre_ne
    · have hp : ¬ (p = obr) := fun he => hpre (he ▸ List.mem_cons_self p pre2)
      rw [ht]
      simp [startsWithBrace, hp]
  have hfi : firstIdxOf obr (trimChars s) = some pre.length := by
    rw [ht, List.append_assoc]
    apply firstIdxOf_append obr pre (json ++ post) hpre
    rw [List.head?_append, hhead]
    rfl
  have hli : lastIdxOf cbr (trimChars s) = some (pre.length + json.length - 1) := by
    rw [ht]
    exact lastIdxOf_append cbr pre json post hpost hlast
  have hij : pre.length < pre.length + json.length - 1 := by omega
  have hslice : sliceChars (trimChars s) pre.length
      ((pre.length + json.length - 1) + 1) = json := by
    unfold sliceChars
    rw [ht, List.append_assoc, List.drop_left]
    have : pre.length + json.length - 1 + 1 - pre.length = json.length := by omega
    rw [this, List.take_left]
  unfold extractJsonFromLLMResponse
  simp only [hsw, Bool.false_eq_true, if_false]
  rw [hfi, hli]
  dsimp only
  rw [if_pos hij, hslice]
  dsimp only
  rw [hparse]

/-- When the trimmed reply does not start with a brace, the dedicated
no-JSON error occurs exactly when no open brace is followed by a later
close brace. -/
theorem extract_noJson_iff {α : Type} (sch : JsonValue → Except Unit α)
    (s : List Char) (hb : startsWithBrace (trimChars s) = false) :
    (extractJsonFromLLMResponse sch s = .error .noJson ↔
      ¬ ∃ i j, i < j ∧ (trimChars s).get? i = some obr ∧
        (trimChars s).get? j = some cbr) := by
  unfold extractJsonFromLLMResponse
  simp only [hb, Bool.false_eq_true, if_false]
  rcases h1 : firstIdxOf obr (trimChars s) with _ | i
  · dsimp only
    constructor
    · rintro - ⟨i0, j0, hij0, hgi, hgj⟩
      rcases firstIdxOf_le obr (trimChars s) i0 hgi with ⟨i1, hi1, _⟩
      rw [h1] at hi1
      cases hi1
    · intro _
      rfl
  · rcases h2 : lastIdxOf cbr (trimChars s) with _ | j
    · dsimp only
      constructor
      · rintro - ⟨i0, j0, hij0, hgi, hgj⟩
        rcases lastIdxOf_ge cbr (trimChars s) j0 hgj with ⟨j1, hj1, _⟩
        rw [h2] at hj1
        cases hj1
      · intro _
        rfl
    · dsimp only
      by_cases hij : i < j
      · rw [if_pos hij]
        constructor
        · intro hres
          exfalso
          dsimp only at hres
          rcases hj : jsonParse (sliceChars (trimChars s) i (j + 1)) with _ | v
          · rw [hj] at hres; cases hres
          · rw [hj] at hres
            dsimp only at hres
            rcases hs : sch v with e | b
            · rw [hs] at hres; cases hres
            · rw [hs] at hres; cases hres
        · intro hcontra
          exfalso
          apply hcontra
          exact ⟨i, j, hij, firstIdxOf_get obr _ i h1, lastIdxOf_get cbr _ j h2⟩
      · rw [if_neg hij]
        constructor
        · rintro - ⟨i0, j0, hij0, hgi, hgj⟩
          rcases firstIdxOf_le obr (trimChars s) i0 hgi with ⟨i1, hi1, hle1⟩
          rcases lastIdxOf_ge cbr (trimChars s) j0 hgj with ⟨j1, hj1, hge1⟩
          rw [h1] at hi1
          rw [h2] at hj1
          injection hi1 with hi1
          injection hj1 with hj1
          subst hi1
          subst hj1
          omega
        · intro _
          rfl

/-- C9 (amended): when the trimmed reply does not start with an open
brace, `extractJsonFromLLMResponse` slices from the first `\x7b` to the
last `\x7d`, parses and schema-validates the slice — so a valid JSON
object preceded by brace-free leading text and followed by
close-brace-free trailing text is located and parsed — and it fails with
the dedicated no-JSON error exactly when no open brace precedes a later
close brace.  When the trimmed reply does start with an open brace, the
whole trimmed reply is parsed without any extraction. -/
theorem c9_extraction_behavior {α : Type} (sch : JsonValue → Except Unit α) :
    (∀ (s pre json post : List Char) (v : JsonValue),
      trimChars s = pre ++ json ++ post → pre ≠ [] → obr ∉ pre → cbr ∉ post →
      json.head? = some obr → json.getLast? = some cbr →
      jsonParse json = some v →
      extractJsonFromLLMResponse sch s =
        (match sch v with
         | .ok a => .ok a
         | .error _ => .error .schemaFailed)) ∧
    (∀ s : List Char, startsWithBrace (trimChars s) = false →
      (extractJsonFromLLMResponse sch s = .error .noJson ↔
        ¬ ∃ i j, i < j ∧ (trimChars s).get? i = some obr ∧
          (trimChars s).get? j = some cbr)) ∧
    (∀ s : List Char, startsWithBrace (trimChars s) = true →
      extractJsonFromLLMResponse sch s =
        (match jsonParse (trimChars s) with
         | none => .error .parseFailed
         | some v =>
            match sch v with
            | .ok a => .ok a
            | .error _ => .error .schemaFailed)) := by
  refine ⟨?_, ?_, ?_⟩
  · intro s pre json post v ht h1 h2 h3 h4 h5 h6
    exact extract_slices_surrounded sch s pre json post v ht h1 h2 h3 h4 h5 h6
  · intro s hb
    exact extract_noJson_iff sch s hb
  · intro s hb
    unfold extractJsonFromLLMResponse
    simp only [hb, if_true]

/-- The reply for the C9 witness: leading text, a JSON object, trailing
text. -/
def c9Witness : List Char :=
  strof "x " ++ ([obr] ++ strof "\"a\":1" ++ [cbr]) ++ strof " y"

/-- C9 witness: the extraction theorem's slicing clause at a concrete
surrounded reply, with every hypothesis discharged. -/
theorem c9_extraction_behavior_witness :
    trimChars c9Witness =
      strof "x " ++ ([obr] ++ strof "\"a\":1" ++ [cbr]) ++ strof " y" ∧
    extractJsonFromLLMResponse noSchema c9Witness =
      .ok (JsonValue.obj [(['a'], JsonValue.num 1)]) :=
  ⟨rfl,
    (c9_extraction_behavior noSchema).1 c9Witness (strof "x ")
      ([obr] ++ strof "\"a\":1" ++ [cbr]) (strof " y")
      (JsonValue.obj [(['a'], JsonValue.num 1)])
      rfl (by decide) (by decide) (by decide) rfl rfl rfl⟩
